import Mathlib

set_option maxRecDepth 8000

/-!
Verification of the recurring-task occurrence engine of the tasker
repository.  The definitions below are a shallow embedding of the
TypeScript source: `matchesRecurrenceConstraints`, `advanceDate`,
`calculateNextOccurrences` (src/main.ts 1340-1443, identical to the copy
in the newest unnamed source file), `calculateNextOccurrenceAfterDate`
(newest unnamed source file, lines 2017-2114), the completion path of
`toggleTask`, and the materialization pass
`checkAndGenerateRecurringTasks` (src/main.ts 1245-1302).

JavaScript `Date` objects, which the source mutates in place, are
modelled as immutable `Date` records (year, month 1-12, day 1-31); the
source only ever advances dates day by day (`setDate(getDate()+n)` with
n ≥ 0), by months (`setMonth(getMonth()+n)`) or by years
(`setFullYear(getFullYear()+n)`), and those normalizing operations are
reproduced by `addDays`, `addMonths`, `addYears`.  Timestamp comparison
of normalized dates is lexicographic comparison of (year, month, day),
embedded as `dateLt` / `dateLe`.  The `while (...) { ...; safety++ }`
loops guarded by `safetyCounter < MAX_ITERATIONS` are embedded as
structural recursion on the remaining budget; each loop function also
returns the number of iterations it executed, so that the iteration
ceilings of the source are provable statements here.
-/

namespace Tasker

/-- A civil calendar day, as the source's `Date` values (time-of-day is
always zeroed by `setHours(0,0,0,0)` and is not modelled). -/
structure Date where
  year : Nat
  month : Nat
  day : Nat
deriving DecidableEq, Repr

/-- Timestamp comparison `a < b` of two normalized JS dates:
lexicographic on (year, month, day). -/
def dateLt (a b : Date) : Bool :=
  decide (a.year < b.year) ||
    (decide (a.year = b.year) && (decide (a.month < b.month) ||
      (decide (a.month = b.month) && decide (a.day < b.day))))

/-- Timestamp comparison `a <= b` of two normalized JS dates. -/
def dateLe (a b : Date) : Bool := !dateLt b a

/-- Gregorian leap-year test (as JS date arithmetic behaves). -/
def isLeap (y : Nat) : Bool :=
  (y % 4 == 0 && y % 100 != 0) || (y % 400 == 0)

/-- Number of days in a month, as JS date normalization behaves. -/
def daysInMonth (y m : Nat) : Nat :=
  if m == 2 then (if isLeap y then 29 else 28)
  else if m == 4 || m == 6 || m == 9 || m == 11 then 30
  else 31

/-- One day forward: JS `d.setDate(d.getDate() + 1)` on a normalized date. -/
def nextDay (d : Date) : Date :=
  if d.day + 1 ≤ daysInMonth d.year d.month then ⟨d.year, d.month, d.day + 1⟩
  else if d.month + 1 ≤ 12 then ⟨d.year, d.month + 1, 1⟩
  else ⟨d.year + 1, 1, 1⟩

/-- `n` days forward: JS `d.setDate(d.getDate() + n)` for `n ≥ 0`. -/
def addDays : Nat → Date → Date
  | 0, d => d
  | n + 1, d => addDays n (nextDay d)

/-- JS `d.setMonth(d.getMonth() + i)`: the month index advances by `i`
and an out-of-range day-of-month overflows into the following month
(e.g. Jan 31 + 1 month = Mar 3). -/
def addMonths (i : Nat) (d : Date) : Date :=
  let m0 := d.month - 1 + i
  let y := d.year + m0 / 12
  let m := m0 % 12 + 1
  if d.day ≤ daysInMonth y m then ⟨y, m, d.day⟩
  else
    let d2 := d.day - daysInMonth y m
    if m + 1 ≤ 12 then ⟨y, m + 1, d2⟩ else ⟨y + 1, 1, d2⟩

/-- JS `d.setFullYear(d.getFullYear() + i)`: same month/day in a later
year, Feb 29 overflowing to Mar 1 in a non-leap year. -/
def addYears (i : Nat) (d : Date) : Date :=
  let y := d.year + i
  if d.day ≤ daysInMonth y d.month then ⟨y, d.month, d.day⟩
  else
    let d2 := d.day - daysInMonth y d.month
    if d.month + 1 ≤ 12 then ⟨y, d.month + 1, d2⟩ else ⟨y + 1, 1, d2⟩

/-- Leap years in `[1..y]`. -/
def leapCount (y : Nat) : Nat := y / 4 - y / 100 + y / 400

/-- Days from the start of the year to the start of month `m`. -/
def daysBeforeMonth (y m : Nat) : Nat :=
  (List.range (m - 1)).foldl (fun acc i => acc + daysInMonth y (i + 1)) 0

/-- Days since 1970-01-01 (for dates from 1970 on). -/
def epochDays (d : Date) : Nat :=
  365 * (d.year - 1970) + (leapCount (d.year - 1) - 477)
    + daysBeforeMonth d.year d.month + (d.day - 1)

/-- JS `getDay()`: day of week, 0 = Sunday .. 6 = Saturday.
1970-01-01 was a Thursday (4). -/
def weekday (d : Date) : Nat := (epochDays d + 4) % 7

/-- The recurrence units admitted by the source's pattern regex
`^(\d+)(day|week|month|year)$`. -/
inductive RUnit where
  | day
  | week
  | month
  | year
deriving DecidableEq, Repr

/-- The fields of the source's `Task` record that the recurrence engine
reads.  `recurringEnding = none` stands for an absent field or the
literal `never` (both make the source use `endDate = null`); dates are
held as parsed `Date` values (`formatDate` / `new Date(string)` is a
bijection on the normalized dates the engine exchanges).  The yearly
`month::[mm-dd,...]` list is held as (month, day) pairs; the source
compares its zero-padded `"MM-DD"` strings, whose lexicographic order
coincides with the pairwise order embedded here. -/
structure Task where
  taskName : String
  project : Option String := none
  sectionName : Option String := none
  dueDate : Option Date := none
  status : String := "todo"
  lineNumber : Int := 0
  isRecurring : Bool := false
  isGeneratedRecurring : Bool := false
  recurringPattern : Option String := none
  recurringStarting : Option Date := none
  recurringEnding : Option Date := none
  recurringWDay : Option (List Nat) := none
  recurringDay : Option (List Nat) := none
  recurringMonth : Option (List (Nat × Nat)) := none
deriving DecidableEq, Repr

/-- Numeric value of a digit string, as `parseInt` on the regex capture. -/
def digitsVal (cs : List Char) : Nat :=
  cs.foldl (fun a c => a * 10 + (c.toNat - 48)) 0

/-- The unit words accepted by the pattern regex. -/
def unitOfChars : List Char → Option RUnit
  | ['d', 'a', 'y'] => some .day
  | ['w', 'e', 'e', 'k'] => some .week
  | ['m', 'o', 'n', 't', 'h'] => some .month
  | ['y', 'e', 'a', 'r'] => some .year
  | _ => none

/-- The source's `recurringPattern.match(/^(\d+)(day|week|month|year)$/)`:
a nonempty digit prefix followed exactly by one of the four unit words,
or no match. -/
def parsePattern (s : List Char) : Option (Nat × RUnit) :=
  let ds := s.takeWhile Char.isDigit
  if ds.isEmpty then none
  else
    match unitOfChars (s.drop ds.length) with
    | some u => some (digitsVal ds, u)
    | none => none

/-- `matchesRecurrenceConstraints(date, task, unit)` from the source:
the weekday / day-of-month / (month, day) constraint is consulted only
when the unit matches its kind and the stored list is nonempty;
otherwise the date always passes. -/
def matchesRecurrenceConstraints (date : Date) (task : Task) (unit : RUnit) : Bool :=
  if unit == .week && (task.recurringWDay.getD []).length > 0 then
    (task.recurringWDay.getD []).contains (weekday date)
  else if unit == .month && (task.recurringDay.getD []).length > 0 then
    (task.recurringDay.getD []).contains date.day
  else if unit == .year && (task.recurringMonth.getD []).length > 0 then
    (task.recurringMonth.getD []).any (fun pr => pr.1 == date.month && pr.2 == date.day)
  else true

/-- `advanceDate(date, interval, unit)` from the source. -/
def advanceDate (interval : Nat) (unit : RUnit) (d : Date) : Date :=
  match unit with
  | .day => addDays interval d
  | .week => addDays (interval * 7) d
  | .month => addMonths interval d
  | .year => addYears interval d

/-- The source's iteration ceiling `MAX_ITERATIONS`. -/
def MAX_ITERATIONS : Nat := 1000

/-- A day-by-day search loop
`while (!p(cur) && safety < fuel) { cur = cur + 1 day; safety++ }`:
returns the final cursor together with the number of iterations run. -/
def scanC (p : Date → Bool) : Nat → Date → Date × Nat
  | 0, d => (d, 0)
  | n + 1, d =>
      if p d then (d, 0)
      else
        let r := scanC p n (nextDay d)
        (r.1, r.2 + 1)

/-- The catch-up loop of `calculateNextOccurrences`:
`while (cur < today && safety < fuel)`, advancing by one interval when
the constraint matches and by one day otherwise; returns the final
cursor and the number of iterations run. -/
def catchUp (p : Date → Bool) (adv : Date → Date) (today : Date) :
    Nat → Date → Date × Nat
  | 0, d => (d, 0)
  | n + 1, d =>
      if dateLt d today then
        let next := if p d then adv d else nextDay d
        let r := catchUp p adv today n next
        (r.1, r.2 + 1)
      else (d, 0)

/-- The end-of-rule stop `endDate && currentDate > endDate`. -/
def endStop (endD : Option Date) (cur : Date) : Bool :=
  match endD with
  | some e => dateLt e cur
  | none => false

/-- The generation loop of `calculateNextOccurrences`: while fewer than
`rem` occurrences are emitted and the outer safety budget lasts, stop at
the end bound, emit a matching cursor and re-snap day by day (inner
budget `MAX_ITERATIONS`) after advancing by one interval, or advance a
non-matching cursor by one day.  Returns (occurrences, outer iterations,
total inner re-snap iterations). -/
def genLoop (p : Date → Bool) (adv : Date → Date) (endD : Option Date) :
    Nat → Nat → Date → List Date × Nat × Nat
  | 0, _, _ => ([], 0, 0)
  | _ + 1, 0, _ => ([], 0, 0)
  | fuel + 1, rem + 1, cur =>
      if endStop endD cur then ([], 0, 0)
      else if p cur then
        let s := scanC p MAX_ITERATIONS (adv cur)
        let r := genLoop p adv endD fuel rem s.1
        (cur :: r.1, r.2.1 + 1, r.2.2 + s.2)
      else
        let r := genLoop p adv endD fuel (rem + 1) (nextDay cur)
        (r.1, r.2.1 + 1, r.2.2)

/-- Does the rule have a constraint list that triggers the anchor phase
(the three `if`/`else if` branches before the catch-up loop)? -/
def hasAnchorConstraint (task : Task) (unit : RUnit) : Bool :=
  (unit == .week && (task.recurringWDay.getD []).length > 0) ||
  (unit == .month && (task.recurringDay.getD []).length > 0) ||
  (unit == .year && (task.recurringMonth.getD []).length > 0)

/-- Anchor phase of `calculateNextOccurrences`: from the start date,
advance one day at a time until the constraint matches (budget
`MAX_ITERATIONS`), but only when a constraint list for the unit is
present and nonempty. -/
def anchorPhase (task : Task) (unit : RUnit) (start : Date) : Date × Nat :=
  if hasAnchorConstraint task unit then
    scanC (fun d => matchesRecurrenceConstraints d task unit) MAX_ITERATIONS start
  else (start, 0)

/-- The occurrence list of one `calculateNextOccurrences` run together
with the iteration counts of its loops: the anchor scan, the catch-up
loop, the final snap scan, the generation loop (outer iterations) and
the total of the inner re-snap scans inside the generation loop. -/
structure CalcOut where
  occurrences : List Date
  anchorSteps : Nat
  catchUpSteps : Nat
  snapSteps : Nat
  genOuterSteps : Nat
  genInnerSteps : Nat
deriving DecidableEq, Repr

/-- Instrumented `calculateNextOccurrences(task, count)` from the source
(`today` made explicit): the occurrence list together with the iteration
counts of the loop phases. -/
def calcOccurrencesInstr (task : Task) (count : Nat) (today : Date) : CalcOut :=
  if !task.isRecurring then ⟨[], 0, 0, 0, 0, 0⟩
  else
    match task.recurringPattern with
    | none => ⟨[], 0, 0, 0, 0, 0⟩
    | some pat =>
        match parsePattern pat.toList with
        | none => ⟨[], 0, 0, 0, 0, 0⟩
        | some (interval, unit) =>
            let startDate := task.recurringStarting.getD today
            let endDate := task.recurringEnding
            let p := fun d => matchesRecurrenceConstraints d task unit
            let adv := advanceDate interval unit
            let a := anchorPhase task unit startDate
            let c := catchUp p adv today MAX_ITERATIONS a.1
            let f := scanC p MAX_ITERATIONS c.1
            let g := genLoop p adv endDate MAX_ITERATIONS count f.1
            ⟨g.1, a.2, c.2, f.2, g.2.1, g.2.2⟩

/-- `calculateNextOccurrences(task, count)` from the source, with the
wall-clock `today` an explicit argument. -/
def calculateNextOccurrences (task : Task) (count : Nat) (today : Date) : List Date :=
  (calcOccurrencesInstr task count today).occurrences

/-- `testDate <= endDate` guard (`!endDate ||` making an absent end pass). -/
def withinEnd (endD : Option Date) (t : Date) : Bool :=
  match endD with
  | some e => dateLe t e
  | none => true

/-- JS `date.setDate(day)` for `day ≥ 1`: a day beyond the month's
length rolls into the following months.  The first argument is
recursion budget; `day` sinks by at least 28 per roll, so a budget of
`day` always suffices. -/
def rollDay : Nat → Nat → Nat → Nat → Date
  | 0, y, m, day => ⟨y, m, day⟩
  | fuel + 1, y, m, day =>
      if day ≤ daysInMonth y m then ⟨y, m, day⟩
      else if m + 1 ≤ 12 then rollDay fuel y (m + 1) (day - daysInMonth y m)
      else rollDay fuel (y + 1) 1 (day - daysInMonth y m)

/-- JS `new Date(cur); testDate.setDate(day)`. -/
def setDayOfMonth (d : Date) (day : Nat) : Date := rollDay day d.year d.month day

/-- JS `new Date(year, month - 1, day)` (normalizing). -/
def mkDateNorm (y m day : Nat) : Date :=
  rollDay day (y + (m - 1) / 12) ((m - 1) % 12 + 1) day

/-- Ascending insertion into a sorted list (for `sort((a, b) => a - b)`). -/
def insertAsc (x : Nat) : List Nat → List Nat
  | [] => [x]
  | y :: ys => if x ≤ y then x :: y :: ys else y :: insertAsc x ys

/-- The source's numeric `sort((a, b) => a - b)` on a day list. -/
def sortAsc : List Nat → List Nat
  | [] => []
  | x :: xs => insertAsc x (sortAsc xs)

/-- Lexicographic order on (month, day) pairs: the order of the
zero-padded `"MM-DD"` strings the source compares. -/
def pairLt (a b : Nat × Nat) : Bool :=
  decide (a.1 < b.1) || (decide (a.1 = b.1) && decide (a.2 < b.2))

/-- Ascending insertion for (month, day) pairs. -/
def insertPairAsc (x : Nat × Nat) : List (Nat × Nat) → List (Nat × Nat)
  | [] => [x]
  | y :: ys => if pairLt y x then y :: insertPairAsc x ys else x :: y :: ys

/-- The source's default string `sort()` on the `"MM-DD"` list. -/
def sortPairsAsc : List (Nat × Nat) → List (Nat × Nat)
  | [] => []
  | x :: xs => insertPairAsc x (sortPairsAsc xs)

/-- The weekly multi-day special case of
`calculateNextOccurrenceAfterDate`: for `i = 1..6` (second argument,
first argument the remaining trip count), return `cur + i` days as soon
as its weekday is in the list and the end bound admits it. -/
def weeklyNextGo (wd : List Nat) (endD : Option Date) (cur : Date) :
    Nat → Nat → Option Date
  | 0, _ => none
  | n + 1, i =>
      let t := addDays i cur
      if wd.contains (weekday t) && withinEnd endD t then some t
      else weeklyNextGo wd endD cur n (i + 1)

/-- The monthly multi-day special case: walk the ascending day list and
return the first day after the current day-of-month that stays in the
current month and within the end bound. -/
def monthlyNextScan (endD : Option Date) (cur : Date) : List Nat → Option Date
  | [] => none
  | day :: rest =>
      if cur.day < day then
        let t := setDayOfMonth cur day
        if t.month == cur.month && withinEnd endD t then some t
        else monthlyNextScan endD cur rest
      else monthlyNextScan endD cur rest

/-- The yearly multi-date special case: walk the ascending (month, day)
list and return the first date after the current (month, day) in the
current year that is within the end bound. -/
def yearlyNextScan (endD : Option Date) (cur : Date) : List (Nat × Nat) → Option Date
  | [] => none
  | p :: rest =>
      if pairLt (cur.month, cur.day) p then
        let t := mkDateNorm cur.year p.1 p.2
        if withinEnd endD t then some t
        else yearlyNextScan endD cur rest
      else yearlyNextScan endD cur rest

/-- Instrumented `calculateNextOccurrenceAfterDate(task, afterDate)`
from the newest source: the result together with the number of
iterations of its day-by-day search loop. -/
def calcNextAfterInstr (task : Task) (afterDate : Date) : Option Date × Nat :=
  if !task.isRecurring then (none, 0)
  else
    match task.recurringPattern with
    | none => (none, 0)
    | some pat =>
        match parsePattern pat.toList with
        | none => (none, 0)
        | some (interval, unit) =>
            let endDate := task.recurringEnding
            let wd := task.recurringWDay.getD []
            let md := task.recurringDay.getD []
            let ym := task.recurringMonth.getD []
            let w : Option Date :=
              if unit == .week && wd.length > 1 then
                weeklyNextGo wd endDate afterDate 6 1
              else none
            match w with
            | some t => (some t, 0)
            | none =>
                let mo : Option Date :=
                  if unit == .month && md.length > 1 then
                    monthlyNextScan endDate afterDate (sortAsc md)
                  else none
                match mo with
                | some t => (some t, 0)
                | none =>
                    let yr : Option Date :=
                      if unit == .year && ym.length > 1 then
                        yearlyNextScan endDate afterDate (sortPairsAsc ym)
                      else none
                    match yr with
                    | some t => (some t, 0)
                    | none =>
                        let r := scanC (fun d => matchesRecurrenceConstraints d task unit)
                          MAX_ITERATIONS (advanceDate interval unit afterDate)
                        if endStop endDate r.1 then (none, r.2)
                        else if MAX_ITERATIONS ≤ r.2 then (none, r.2)
                        else (some r.1, r.2)

/-- `calculateNextOccurrenceAfterDate(task, afterDate)` from the newest
source (the `NextAfterResolver`). -/
def calculateNextOccurrenceAfterDate (task : Task) (afterDate : Date) : Option Date :=
  (calcNextAfterInstr task afterDate).1

/-- The template lookup `toggleTask` performs when completing an
occurrence: the first non-generated recurring task with the same name,
project and section. -/
def findTemplate (tasks : List Task) (task : Task) : Option Task :=
  tasks.find? (fun t =>
    t.isRecurring && !t.isGeneratedRecurring &&
    t.taskName == task.taskName && t.project == task.project &&
    t.sectionName == task.sectionName)

/-- The due date of the next instance the newest source's `toggleTask`
writes when invoked on a task with status `todo`: in both its branches
(virtual task with line number -1, or a real task whose line number is
inside the file) it locates the template and calls
`calculateNextOccurrenceAfterDate(template, task.dueDate)`; the
wall-clock `today` plays no part. -/
def toggleTaskNextDate (tasks : List Task) (numLines : Nat) (task : Task) : Option Date :=
  if task.status == "todo" then
    if task.isGeneratedRecurring && task.lineNumber == -1 then
      match findTemplate tasks task, task.dueDate with
      | some tmpl, some d => calculateNextOccurrenceAfterDate tmpl d
      | _, _ => none
    else if 0 ≤ task.lineNumber ∧ task.lineNumber < (numLines : Int) then
      match findTemplate tasks task, task.dueDate with
      | some tmpl, some d => calculateNextOccurrenceAfterDate tmpl d
      | _, _ => none
    else none
  else none

/-- The semantic content of the line `buildRecurringTaskInstance` writes
for a template and a due date: same name, project and section, the given
due date, and no `recurring::` field — so the store parses it back as a
non-recurring instance. -/
def buildRecurringTaskInstance (tmpl : Task) (due : Date) : Task :=
  { taskName := tmpl.taskName
    project := tmpl.project
    sectionName := tmpl.sectionName
    dueDate := some due
    status := "todo"
    lineNumber := 0
    isRecurring := false
    isGeneratedRecurring := false }

/-- The idempotency check of `checkAndGenerateRecurringTasks`: is a
non-recurring instance with this name and due date already present? -/
def instanceExists (tasks : List Task) (name : String) (d : Date) : Bool :=
  tasks.any (fun t => t.taskName == name && t.dueDate == some d && !t.isRecurring)

/-- The write list produced by one body of
`checkAndGenerateRecurringTasks` once past the 24-hour gate: for each
template, of its next two occurrences those due today or tomorrow and
not already materialized. -/
def materializationWrites (tasks : List Task) (today : Date) : List Task :=
  let tomorrow := addDays 1 today
  (tasks.filter (fun t => t.isRecurring && !t.isGeneratedRecurring)).flatMap
    (fun tmpl =>
      (calculateNextOccurrences tmpl 2 today).filterMap (fun occ =>
        if dateLe occ tomorrow && !instanceExists tasks tmpl.taskName occ then
          some (buildRecurringTaskInstance tmpl occ)
        else none))

/-- Milliseconds in the source's `oneDay` heartbeat gate. -/
def oneDayMs : Nat := 24 * 60 * 60 * 1000

/-- `checkAndGenerateRecurringTasks` from the source: a run within 24h
of the previous one returns without writing; otherwise it performs the
materialization pass and stamps the check time.  Result: written
instances and new `lastRecurringCheck`. -/
def checkAndGenerateRecurringTasks (lastCheck now : Nat) (tasks : List Task)
    (today : Date) : List Task × Nat :=
  if now - lastCheck < oneDayMs then ([], lastCheck)
  else (materializationWrites tasks today, now)

/-- Weekly-on-Sunday template started on Saturday 2025-10-18: the rule
of the source's documented due-date regression. -/
def sundayTemplate : Task :=
  { taskName := "sunday task"
    isRecurring := true
    recurringPattern := some "1week"
    recurringStarting := some ⟨2025, 10, 18⟩
    recurringWDay := some [0] }

/-- Weekly Mon/Wed/Fri template (weekdays 1, 3, 5). -/
def mwfTemplate : Task :=
  { taskName := "mwf task"
    isRecurring := true
    recurringPattern := some "1week"
    recurringStarting := some ⟨2025, 10, 18⟩
    recurringWDay := some [1, 3, 5] }

/-- Weekly rule whose weekday list is present but empty (the
`WeekDays(∅)` rule of the historical freeze incident). -/
def emptyWdayTemplate : Task :=
  { taskName := "empty wday"
    isRecurring := true
    recurringPattern := some "1week"
    recurringStarting := some ⟨2025, 10, 18⟩
    recurringWDay := some [] }

/-- Weekly Mon/Wed/Fri template with interval 2 (every two weeks). -/
def mwf2Template : Task :=
  { taskName := "mwf2 task"
    isRecurring := true
    recurringPattern := some "2week"
    recurringStarting := some ⟨2025, 10, 18⟩
    recurringWDay := some [1, 3, 5] }

/-- Weekly rule carrying a month-day constraint list, i.e. a constraint
mismatched to its unit. -/
def mismatchedTemplate : Task :=
  { taskName := "mismatched"
    isRecurring := true
    recurringPattern := some "1week"
    recurringStarting := some ⟨2025, 10, 18⟩
    recurringDay := some [15] }

/-- Monthly rule carrying a weekday constraint list, i.e. a constraint
mismatched to its unit. -/
def mismatchedMonthlyTemplate : Task :=
  { taskName := "mismatched monthly"
    isRecurring := true
    recurringPattern := some "1month"
    recurringStarting := some ⟨2025, 10, 18⟩
    recurringWDay := some [0] }

/-- The rule with every constraint list that does not belong to `unit`
removed; the unit's own list (if any) is kept.  A daily rule keeps no
list at all. -/
def stripMismatched (task : Task) (unit : RUnit) : Task :=
  match unit with
  | .day =>
      { task with recurringWDay := none, recurringDay := none, recurringMonth := none }
  | .week => { task with recurringDay := none, recurringMonth := none }
  | .month => { task with recurringWDay := none, recurringMonth := none }
  | .year => { task with recurringWDay := none, recurringDay := none }

/-- Daily rule started more than 1000 days before the reference date:
the catch-up loop hits its ceiling before reaching "today". -/
def farPastTemplate : Task :=
  { taskName := "far past"
    isRecurring := true
    recurringPattern := some "1day"
    recurringStarting := some ⟨2020, 1, 1⟩ }

/-- A materialized occurrence of the Sunday series, due 2025-10-19,
sitting on line 5 of the store. -/
def completedSundayInstance : Task :=
  { taskName := "sunday task"
    dueDate := some ⟨2025, 10, 19⟩
    status := "todo"
    lineNumber := 5 }

/-- Rule whose `recurring::` pattern the regex does not accept. -/
def malformedTemplate : Task :=
  { taskName := "malformed"
    isRecurring := true
    recurringPattern := some "weekly"
    recurringStarting := some ⟨2025, 10, 18⟩ }

/-! ### Order infrastructure on dates

All dates the engine handles have month 1-12 and day 1-31 (`Bounded`);
on such dates the timestamp order `dateLt` coincides with the order of
the packed key `(year * 32 + month) * 32 + day`. -/

/-- Dates with month and day in calendar range. -/
def Bounded (d : Date) : Prop :=
  1 ≤ d.month ∧ d.month ≤ 12 ∧ 1 ≤ d.day ∧ d.day ≤ 31

instance (d : Date) : Decidable (Bounded d) := by unfold Bounded; infer_instance

/-- Packed comparison key; on `Bounded` dates its order is the
lexicographic (timestamp) order. -/
def key (d : Date) : Nat := (d.year * 32 + d.month) * 32 + d.day

/-! ### Sanity examples and supporting lemmas -/

example : weekday ⟨1970, 1, 1⟩ = 4 := by decide
example : weekday ⟨2025, 10, 18⟩ = 6 := by decide
example : weekday ⟨2025, 10, 19⟩ = 0 := by decide
example : weekday ⟨2025, 10, 20⟩ = 1 := by decide
example : parsePattern "1week".toList = some (1, .week) := by decide
example : parsePattern "2day".toList = some (2, .day) := by decide
example : parsePattern "weekly".toList = none := by decide
example : parsePattern "1fortnight".toList = none := by decide
example : calculateNextOccurrences sundayTemplate 1 ⟨2025, 10, 18⟩ = [⟨2025, 10, 19⟩] := by
  decide
example : calculateNextOccurrenceAfterDate mwfTemplate ⟨2025, 10, 20⟩ = some ⟨2025, 10, 22⟩ := by
  decide
example : calculateNextOccurrenceAfterDate sundayTemplate ⟨2025, 10, 19⟩ = some ⟨2025, 10, 26⟩ := by
  decide

theorem daysInMonth_le (y m : Nat) : daysInMonth y m ≤ 31 := by
  unfold daysInMonth
  repeat' split
  all_goals omega

theorem daysInMonth_ge (y m : Nat) : 28 ≤ daysInMonth y m := by
  unfold daysInMonth
  repeat' split
  all_goals omega

theorem dateLt_iff_key {a b : Date} (ha : Bounded a) (hb : Bounded b) :
    dateLt a b = true ↔ key a < key b := by
  obtain ⟨ha1, ha2, ha3, ha4⟩ := ha
  obtain ⟨hb1, hb2, hb3, hb4⟩ := hb
  simp only [dateLt, key, Bool.or_eq_true, Bool.and_eq_true, decide_eq_true_eq]
  omega

theorem dateLt_false_iff_key {a b : Date} (ha : Bounded a) (hb : Bounded b) :
    dateLt a b = false ↔ key b ≤ key a := by
  rw [← Bool.not_eq_true, not_iff_comm, dateLt_iff_key ha hb]
  omega

theorem bounded_nextDay {d : Date} (h : Bounded d) : Bounded (nextDay d) := by
  obtain ⟨h1, h2, h3, h4⟩ := h
  have := daysInMonth_le d.year d.month
  unfold nextDay Bounded
  repeat' split
  all_goals simp_all
  all_goals omega

theorem key_lt_nextDay {d : Date} (h : Bounded d) : key d < key (nextDay d) := by
  obtain ⟨h1, h2, h3, h4⟩ := h
  have := daysInMonth_le d.year d.month
  unfold nextDay key
  repeat' split
  all_goals simp_all
  all_goals nlinarith

theorem bounded_addDays {d : Date} (n : Nat) (h : Bounded d) : Bounded (addDays n d) := by
  induction n generalizing d with
  | zero => exact h
  | succ k ih => exact ih (bounded_nextDay h)

theorem key_le_addDays {d : Date} (n : Nat) (h : Bounded d) : key d ≤ key (addDays n d) := by
  induction n generalizing d with
  | zero => exact Nat.le_refl _
  | succ k ih =>
      have h1 := key_lt_nextDay h
      have h2 := ih (bounded_nextDay h)
      simp only [addDays] at *
      omega

theorem key_lt_addDays {d : Date} (n : Nat) (hn : 1 ≤ n) (h : Bounded d) :
    key d < key (addDays n d) := by
  cases n with
  | zero => omega
  | succ k =>
      have h1 := key_lt_nextDay h
      have h2 := key_le_addDays k (bounded_nextDay h)
      simp only [addDays] at *
      omega

theorem bounded_addMonths {d : Date} (i : Nat) (h : Bounded d) :
    Bounded (addMonths i d) := by
  obtain ⟨h1, h2, h3, h4⟩ := h
  have hle := daysInMonth_le (d.year + (d.month - 1 + i) / 12) ((d.month - 1 + i) % 12 + 1)
  have hge := daysInMonth_ge (d.year + (d.month - 1 + i) / 12) ((d.month - 1 + i) % 12 + 1)
  unfold addMonths
  simp only []
  split
  · dsimp only [Bounded]; omega
  · split
    · dsimp only [Bounded]; omega
    · dsimp only [Bounded]; omega

theorem key_lt_addMonths {d : Date} (i : Nat) (hi : 1 ≤ i) (h : Bounded d) :
    key d < key (addMonths i d) := by
  obtain ⟨h1, h2, h3, h4⟩ := h
  have hle := daysInMonth_le (d.year + (d.month - 1 + i) / 12) ((d.month - 1 + i) % 12 + 1)
  have hge := daysInMonth_ge (d.year + (d.month - 1 + i) / 12) ((d.month - 1 + i) % 12 + 1)
  unfold addMonths
  simp only []
  split
  · dsimp only [key]; omega
  · split
    · dsimp only [key]; omega
    · dsimp only [key]; omega

theorem bounded_addYears {d : Date} (i : Nat) (h : Bounded d) :
    Bounded (addYears i d) := by
  obtain ⟨h1, h2, h3, h4⟩ := h
  have hle := daysInMonth_le (d.year + i) d.month
  have hge := daysInMonth_ge (d.year + i) d.month
  unfold addYears
  simp only []
  split
  · dsimp only [Bounded]; omega
  · split
    · dsimp only [Bounded]; omega
    · dsimp only [Bounded]; omega

theorem key_lt_addYears {d : Date} (i : Nat) (hi : 1 ≤ i) (h : Bounded d) :
    key d < key (addYears i d) := by
  obtain ⟨h1, h2, h3, h4⟩ := h
  have hle := daysInMonth_le (d.year + i) d.month
  have hge := daysInMonth_ge (d.year + i) d.month
  unfold addYears
  simp only []
  split
  · dsimp only [key]; omega
  · split
    · dsimp only [key]; omega
    · dsimp only [key]; omega

theorem bounded_advanceDate {d : Date} (interval : Nat) (unit : RUnit) (h : Bounded d) :
    Bounded (advanceDate interval unit d) := by
  cases unit with
  | day => exact bounded_addDays _ h
  | week => exact bounded_addDays _ h
  | month => exact bounded_addMonths _ h
  | year => exact bounded_addYears _ h

theorem key_lt_advanceDate {d : Date} (interval : Nat) (unit : RUnit)
    (hi : 1 ≤ interval) (h : Bounded d) : key d < key (advanceDate interval unit d) := by
  cases unit with
  | day => exact key_lt_addDays _ hi h
  | week => exact key_lt_addDays _ (by omega) h
  | month => exact key_lt_addMonths _ hi h
  | year => exact key_lt_addYears _ hi h

theorem key_le_advanceDate {d : Date} (interval : Nat) (unit : RUnit) (h : Bounded d) :
    key d ≤ key (advanceDate interval unit d) := by
  cases unit with
  | day => exact key_le_addDays _ h
  | week => exact key_le_addDays _ h
  | month =>
      cases Nat.eq_zero_or_pos interval with
      | inl h0 =>
          subst h0
          obtain ⟨h1, h2, h3, h4⟩ := h
          have hle := daysInMonth_le (d.year + (d.month - 1 + 0) / 12) ((d.month - 1 + 0) % 12 + 1)
          have hge := daysInMonth_ge (d.year + (d.month - 1 + 0) / 12) ((d.month - 1 + 0) % 12 + 1)
          show key d ≤ key (addMonths 0 d)
          unfold addMonths
          simp only []
          split
          · unfold key; simp only []; omega
          · split
            · unfold key; simp only []; omega
            · unfold key; simp only []; omega
      | inr hp => exact Nat.le_of_lt (key_lt_addMonths _ hp h)
  | year =>
      cases Nat.eq_zero_or_pos interval with
      | inl h0 =>
          subst h0
          obtain ⟨h1, h2, h3, h4⟩ := h
          have hle := daysInMonth_le (d.year + 0) d.month
          have hge := daysInMonth_ge (d.year + 0) d.month
          show key d ≤ key (addYears 0 d)
          unfold addYears
          simp only []
          split
          · unfold key; simp only []; omega
          · split
            · unfold key; simp only []; omega
            · unfold key; simp only []; omega
      | inr hp => exact Nat.le_of_lt (key_lt_addYears _ hp h)

/-! ### Loop lemmas -/

theorem scanC_steps_le (p : Date → Bool) (n : Nat) (d : Date) :
    (scanC p n d).2 ≤ n := by
  induction n generalizing d with
  | zero => simp [scanC]
  | succ k ih =>
      simp only [scanC]
      split
      · simp
      · dsimp only
        exact Nat.succ_le_succ (ih (nextDay d))

theorem scanC_matches (p : Date → Bool) (n : Nat) (d : Date)
    (h : (scanC p n d).2 < n) : p (scanC p n d).1 = true := by
  induction n generalizing d with
  | zero => omega
  | succ k ih =>
      simp only [scanC] at *
      split at h
      · simp_all
      · rename_i hp
        simp only [hp, if_false] at *
        exact ih (nextDay d) (by omega)

theorem scanC_bounded (p : Date → Bool) (n : Nat) {d : Date} (h : Bounded d) :
    Bounded (scanC p n d).1 := by
  induction n generalizing d with
  | zero => exact h
  | succ k ih =>
      simp only [scanC]
      split
      · exact h
      · exact ih (bounded_nextDay h)

theorem scanC_key_le (p : Date → Bool) (n : Nat) {d : Date} (h : Bounded d) :
    key d ≤ key (scanC p n d).1 := by
  induction n generalizing d with
  | zero => exact Nat.le_refl _
  | succ k ih =>
      simp only [scanC]
      split
      · exact Nat.le_refl _
      · exact Nat.le_trans (Nat.le_of_lt (key_lt_nextDay h)) (ih (bounded_nextDay h))

theorem scanC_first (p : Date → Bool) (n k : Nat) (d : Date)
    (hk : k ≤ n) (hmatch : p (addDays k d) = true)
    (hbefore : ∀ j, j < k → p (addDays j d) = false) :
    scanC p n d = (addDays k d, k) := by
  induction k generalizing d n with
  | zero =>
      cases n with
      | zero => simp [scanC, addDays] at hmatch ⊢
      | succ m => simp only [addDays] at hmatch; simp [scanC, addDays, hmatch]
  | succ j ih =>
      cases n with
      | zero => omega
      | succ m =>
          have h0 : p d = false := by
            have := hbefore 0 (by omega)
            simpa [addDays] using this
          simp only [scanC, h0, if_false, Bool.false_eq_true]
          have hrec : scanC p m (nextDay d) = (addDays j (nextDay d), j) := by
            refine ih m (nextDay d) (by omega) ?_ ?_
            · simpa [addDays] using hmatch
            · intro l hl
              have := hbefore (l + 1) (by omega)
              simpa [addDays] using this
          rw [hrec]
          simp [addDays]

theorem catchUp_steps_le (p : Date → Bool) (adv : Date → Date) (today : Date)
    (n : Nat) (d : Date) : (catchUp p adv today n d).2 ≤ n := by
  induction n generalizing d with
  | zero => simp [catchUp]
  | succ k ih =>
      simp only [catchUp]
      split
      · dsimp only
        exact Nat.succ_le_succ (ih _)
      · simp

theorem catchUp_reaches (p : Date → Bool) (adv : Date → Date) (today : Date)
    (n : Nat) (d : Date) (h : (catchUp p adv today n d).2 < n) :
    dateLt (catchUp p adv today n d).1 today = false := by
  induction n generalizing d with
  | zero => omega
  | succ k ih =>
      simp only [catchUp] at h ⊢
      by_cases hc : dateLt d today = true
      · rw [if_pos hc] at h ⊢
        dsimp only at h ⊢
        refine ih _ ?_
        omega
      · rw [if_neg hc] at h ⊢
        simpa using hc

theorem catchUp_bounded (p : Date → Bool) (adv : Date → Date) (today : Date)
    (n : Nat) {d : Date} (hadv : ∀ e, Bounded e → Bounded (adv e)) (h : Bounded d) :
    Bounded (catchUp p adv today n d).1 := by
  induction n generalizing d with
  | zero => exact h
  | succ k ih =>
      simp only [catchUp]
      split
      · split
        · exact ih (hadv _ h)
        · exact ih (bounded_nextDay h)
      · exact h

theorem catchUp_key_le (p : Date → Bool) (adv : Date → Date) (today : Date)
    (n : Nat) {d : Date} (hadvB : ∀ e, Bounded e → Bounded (adv e))
    (hadvK : ∀ e, Bounded e → key e ≤ key (adv e)) (h : Bounded d) :
    key d ≤ key (catchUp p adv today n d).1 := by
  induction n generalizing d with
  | zero => exact Nat.le_refl _
  | succ k ih =>
      simp only [catchUp]
      split
      · dsimp only
        split
        · exact Nat.le_trans (hadvK _ h) (ih (hadvB _ h))
        · exact Nat.le_trans (Nat.le_of_lt (key_lt_nextDay h)) (ih (bounded_nextDay h))
      · exact Nat.le_refl _

theorem withinEnd_eq_not_endStop (endD : Option Date) (t : Date) :
    withinEnd endD t = !endStop endD t := by
  cases endD <;> rfl

theorem genLoop_length_le (p : Date → Bool) (adv : Date → Date) (endD : Option Date)
    (fuel rem : Nat) (cur : Date) :
    (genLoop p adv endD fuel rem cur).1.length ≤ rem := by
  induction fuel generalizing rem cur with
  | zero => simp [genLoop]
  | succ f ih =>
      cases rem with
      | zero => simp [genLoop]
      | succ r =>
          simp only [genLoop]
          split
          · simp
          · split
            · dsimp only
              simpa using ih r _
            · dsimp only
              exact Nat.le_trans (ih (r + 1) _) (Nat.le_refl _)

theorem genLoop_outer_le (p : Date → Bool) (adv : Date → Date) (endD : Option Date)
    (fuel rem : Nat) (cur : Date) :
    (genLoop p adv endD fuel rem cur).2.1 ≤ fuel := by
  induction fuel generalizing rem cur with
  | zero => simp [genLoop]
  | succ f ih =>
      cases rem with
      | zero => simp [genLoop]
      | succ r =>
          simp only [genLoop]
          split
          · simp
          · split
            · dsimp only
              exact Nat.succ_le_succ (ih r _)
            · dsimp only
              exact Nat.succ_le_succ (ih (r + 1) _)

theorem genLoop_inner_le (p : Date → Bool) (adv : Date → Date) (endD : Option Date)
    (fuel rem : Nat) (cur : Date) :
    (genLoop p adv endD fuel rem cur).2.2 ≤ fuel * MAX_ITERATIONS := by
  induction fuel generalizing rem cur with
  | zero => simp [genLoop]
  | succ f ih =>
      cases rem with
      | zero => simp [genLoop]
      | succ r =>
          simp only [genLoop]
          split
          · simp
          · split
            · dsimp only
              have h1 := ih r ((scanC p MAX_ITERATIONS (adv cur)).1)
              have h2 := scanC_steps_le p MAX_ITERATIONS (adv cur)
              have : (f + 1) * MAX_ITERATIONS = f * MAX_ITERATIONS + MAX_ITERATIONS := by ring
              omega
            · dsimp only
              have h1 := ih (r + 1) (nextDay cur)
              have : f * MAX_ITERATIONS ≤ (f + 1) * MAX_ITERATIONS :=
                Nat.mul_le_mul_right _ (by omega)
              omega

theorem genLoop_sound (p : Date → Bool) (adv : Date → Date) (endD : Option Date)
    (hadvB : ∀ e, Bounded e → Bounded (adv e))
    (hadvK : ∀ e, Bounded e → key e < key (adv e)) :
    ∀ (fuel rem : Nat) (cur : Date), Bounded cur →
      (∀ d ∈ (genLoop p adv endD fuel rem cur).1,
          Bounded d ∧ key cur ≤ key d ∧ withinEnd endD d = true) ∧
      List.Chain' (fun a b => key a < key b) (genLoop p adv endD fuel rem cur).1 := by
  intro fuel
  induction fuel with
  | zero => intro rem cur hc; simp [genLoop]
  | succ f ih =>
      intro rem cur hc
      cases rem with
      | zero => simp [genLoop]
      | succ r =>
          simp only [genLoop]
          by_cases hend : endStop endD cur = true
          · simp [hend]
          · rw [if_neg (by simp [hend])]
            have hwithin : withinEnd endD cur = true := by
              rw [withinEnd_eq_not_endStop]
              simp [hend]
            by_cases hp : p cur = true
            · rw [if_pos hp]
              dsimp only
              set s1 := (scanC p MAX_ITERATIONS (adv cur)).1 with hs1
              have hbadv : Bounded (adv cur) := hadvB _ hc
              have hbs1 : Bounded s1 := scanC_bounded p MAX_ITERATIONS hbadv
              have hks1 : key cur < key s1 :=
                Nat.lt_of_lt_of_le (hadvK _ hc) (scanC_key_le p MAX_ITERATIONS hbadv)
              obtain ⟨hmem, hchain⟩ := ih r s1 hbs1
              constructor
              · intro d hd
                rcases List.mem_cons.mp hd with h | h
                · subst h
                  exact ⟨hc, Nat.le_refl _, hwithin⟩
                · obtain ⟨hb, hk, hw⟩ := hmem d h
                  exact ⟨hb, Nat.le_trans (Nat.le_of_lt hks1) hk, hw⟩
              · rw [List.chain'_cons']
                refine ⟨?_, hchain⟩
                intro y hy
                have hymem := List.mem_of_mem_head? hy
                obtain ⟨_, hk, _⟩ := hmem y hymem
                omega
            · rw [if_neg hp]
              dsimp only
              have hbn : Bounded (nextDay cur) := bounded_nextDay hc
              have hkn : key cur < key (nextDay cur) := key_lt_nextDay hc
              obtain ⟨hmem, hchain⟩ := ih (r + 1) (nextDay cur) hbn
              refine ⟨?_, hchain⟩
              intro d hd
              obtain ⟨hb, hk, hw⟩ := hmem d hd
              exact ⟨hb, by omega, hw⟩

/-! ### Claim theorems -/

/-- C3, counterexample: the claim says `computeOccurrences(rule, today, 5)`
returns an empty sequence for a weekly rule with an empty weekday set;
the code instead treats an empty constraint list as unconstrained
(`length > 0` guards) and returns five weekly occurrences. -/
theorem c3_counterexample :
    calculateNextOccurrences emptyWdayTemplate 5 ⟨2025, 10, 18⟩ =
      [⟨2025, 10, 18⟩, ⟨2025, 10, 25⟩, ⟨2025, 11, 1⟩, ⟨2025, 11, 8⟩, ⟨2025, 11, 15⟩] ∧
    calculateNextOccurrences emptyWdayTemplate 5 ⟨2025, 10, 18⟩ ≠ [] := by
  constructor
  · decide
  · decide

/-- C3, amended: for a weekly rule with an empty weekday set,
`computeOccurrences(rule, today, 5)` returns five weekly occurrences
(the empty set behaves as no constraint), and does so in bounded time:
every loop counter stays far below the 1000-iteration ceiling (anchor,
catch-up, snap and inner scans run 0 iterations, the generation loop 5). -/
theorem c3_amended :
    calcOccurrencesInstr emptyWdayTemplate 5 ⟨2025, 10, 18⟩ =
      ⟨[⟨2025, 10, 18⟩, ⟨2025, 10, 25⟩, ⟨2025, 11, 1⟩, ⟨2025, 11, 8⟩, ⟨2025, 11, 15⟩],
        0, 0, 0, 5, 0⟩ ∧
    0 + 0 + 0 + 5 + 0 < MAX_ITERATIONS := by
  constructor
  · decide
  · decide

theorem weeklyNextGo_first (wd : List Nat) (endD : Option Date) (cur : Date) :
    ∀ (fuel i i0 : Nat), i ≤ i0 → i0 < i + fuel →
    (wd.contains (weekday (addDays i0 cur)) && withinEnd endD (addDays i0 cur)) = true →
    (∀ j, i ≤ j → j < i0 →
      (wd.contains (weekday (addDays j cur)) && withinEnd endD (addDays j cur)) = false) →
    weeklyNextGo wd endD cur fuel i = some (addDays i0 cur) := by
  intro fuel
  induction fuel with
  | zero => intro i i0 h1 h2 _ _; omega
  | succ f ih =>
      intro i i0 h1 h2 hhit hbefore
      simp only [weeklyNextGo]
      by_cases hcase : i = i0
      · subst hcase
        rw [if_pos hhit]
      · have hlt : i < i0 := by omega
        have hfalse := hbefore i (Nat.le_refl _) hlt
        simp only [hfalse, Bool.false_eq_true, if_false]
        exact ih (i + 1) i0 (by omega) (by omega) hhit
          (fun j hj1 hj2 => hbefore j (by omega) hj2)

/-- C4: for a weekly rule whose weekday set has more than one entry,
`nextAfter` scans the 6 days after the previous occurrence and returns
the first whose weekday is in the set and which the end bound admits;
concretely, for WeekDays({Mon,Wed,Fri}) the occurrence after Monday
2025-10-20 is Wednesday 2025-10-22 of the same week. -/
theorem c4_weekly_multi (task : Task) (pat : String) (interval : Nat) (d : Date) (i0 : Nat)
    (hrec : task.isRecurring = true)
    (hpat : task.recurringPattern = some pat)
    (hparse : parsePattern pat.toList = some (interval, RUnit.week))
    (hlen : 1 < (task.recurringWDay.getD []).length)
    (hlo : 1 ≤ i0) (hhi : i0 ≤ 6)
    (hhit : ((task.recurringWDay.getD []).contains (weekday (addDays i0 d)) &&
        withinEnd task.recurringEnding (addDays i0 d)) = true)
    (hbefore : ∀ j, 1 ≤ j → j < i0 →
        ((task.recurringWDay.getD []).contains (weekday (addDays j d)) &&
          withinEnd task.recurringEnding (addDays j d)) = false) :
    calculateNextOccurrenceAfterDate task d = some (addDays i0 d) ∧
    calculateNextOccurrenceAfterDate mwfTemplate ⟨2025, 10, 20⟩ = some ⟨2025, 10, 22⟩ := by
  constructor
  · have hgo := weeklyNextGo_first (task.recurringWDay.getD []) task.recurringEnding d
      6 1 i0 hlo (by omega) hhit hbefore
    unfold calculateNextOccurrenceAfterDate calcNextAfterInstr
    rw [hrec, hpat]
    simp only [Bool.not_true, Bool.false_eq_true, if_false]
    rw [hparse]
    dsimp only
    rw [if_pos (by simp [hlen]), hgo]
  · decide

/-- C10: for a weekly rule with more than one weekday, `nextAfter`
ignores the rule's interval entirely whenever the 6-day scan finds a
listed weekday: two rules differing only in their interval return the
same date, and the every-2-weeks Mon/Wed/Fri rule still yields
Wednesday 2025-10-22 after Monday 2025-10-20 (not a date two weeks
out). -/
theorem c10_interval_ignored (task : Task) (pat pat2 : String) (i1 i2 : Nat) (d t : Date)
    (hrec : task.isRecurring = true)
    (hpat : task.recurringPattern = some pat)
    (hparse : parsePattern pat.toList = some (i1, RUnit.week))
    (hparse2 : parsePattern pat2.toList = some (i2, RUnit.week))
    (hlen : 1 < (task.recurringWDay.getD []).length)
    (hscan : weeklyNextGo (task.recurringWDay.getD []) task.recurringEnding d 6 1 = some t) :
    calculateNextOccurrenceAfterDate task d = some t ∧
    calculateNextOccurrenceAfterDate { task with recurringPattern := some pat2 } d = some t ∧
    calculateNextOccurrenceAfterDate mwf2Template ⟨2025, 10, 20⟩ = some ⟨2025, 10, 22⟩ := by
  refine ⟨?_, ?_, by decide⟩
  · unfold calculateNextOccurrenceAfterDate calcNextAfterInstr
    rw [hrec, hpat]
    simp only [Bool.not_true, Bool.false_eq_true, if_false]
    rw [hparse]
    dsimp only
    rw [if_pos (by simp [hlen]), hscan]
  · unfold calculateNextOccurrenceAfterDate calcNextAfterInstr
    dsimp only
    rw [hrec]
    simp only [Bool.not_true, Bool.false_eq_true, if_false]
    rw [hparse2]
    dsimp only
    rw [if_pos (by simp [hlen]), hscan]

theorem sunday_nextAfter_weekday (d x : Date)
    (hx : calculateNextOccurrenceAfterDate sundayTemplate d = some x) :
    weekday x = 0 := by
  unfold calculateNextOccurrenceAfterDate calcNextAfterInstr at hx
  have hpp : parsePattern ("1week".toList) = some (1, RUnit.week) := by decide
  dsimp only [sundayTemplate] at hx
  rw [hpp] at hx
  dsimp only at hx
  simp [endStop] at hx
  split at hx
  · simp at hx
  · rename_i hle
    have hx1 : x = (scanC (fun e => matchesRecurrenceConstraints e sundayTemplate RUnit.week)
        MAX_ITERATIONS (advanceDate 1 RUnit.week d)).1 := by
      dsimp only [sundayTemplate]
      exact (Option.some.inj hx).symm
    have hsteps : (scanC (fun e => matchesRecurrenceConstraints e sundayTemplate RUnit.week)
        MAX_ITERATIONS (advanceDate 1 RUnit.week d)).2 < MAX_ITERATIONS := by
      dsimp only [sundayTemplate]
      omega
    have hm := scanC_matches (fun e => matchesRecurrenceConstraints e sundayTemplate RUnit.week)
      MAX_ITERATIONS (advanceDate 1 RUnit.week d) hsteps
    rw [← hx1] at hm
    simp [matchesRecurrenceConstraints, sundayTemplate] at hm
    exact hm

/-- C1: completing an occurrence of a recurring series (`toggleTask` on a
task with status `todo`) computes the next occurrence anchored at the
completed due date `d`: both completion branches call
`calculateNextOccurrenceAfterDate(template, d)`, which never reads
"today".  For the weekly Sunday rule started on Saturday 2025-10-18,
every date this returns is a Sunday, never the Saturday start date; the
last two conjuncts exhibit the difference from re-running the occurrence
calculator anchored at today, which would re-emit the just-completed
Sunday itself. -/
theorem c1_completion_anchored_at_due (tasks : List Task) (numLines : Nat)
    (task tmpl : Task) (d : Date)
    (hstatus : task.status = "todo")
    (hbranch : (task.isGeneratedRecurring = true ∧ task.lineNumber = -1) ∨
        (0 ≤ task.lineNumber ∧ task.lineNumber < (numLines : Int)))
    (hfind : findTemplate tasks task = some tmpl)
    (hdue : task.dueDate = some d) :
    toggleTaskNextDate tasks numLines task = calculateNextOccurrenceAfterDate tmpl d ∧
    (∀ d' x, calculateNextOccurrenceAfterDate sundayTemplate d' = some x →
        weekday x = 0 ∧ x ≠ ⟨2025, 10, 18⟩) ∧
    calculateNextOccurrenceAfterDate sundayTemplate ⟨2025, 10, 19⟩ = some ⟨2025, 10, 26⟩ ∧
    calculateNextOccurrences sundayTemplate 1 ⟨2025, 10, 19⟩ = [⟨2025, 10, 19⟩] := by
  refine ⟨?_, ?_, by decide, by decide⟩
  · unfold toggleTaskNextDate
    rw [if_pos (show (task.status == "todo") = true by simp [hstatus])]
    rcases hbranch with ⟨hg, hln⟩ | ⟨h0, hlt⟩
    · rw [if_pos (show (task.isGeneratedRecurring && task.lineNumber == -1) = true by
        simp [hg, hln])]
      rw [hfind, hdue]
    · by_cases hgen : (task.isGeneratedRecurring && task.lineNumber == -1) = true
      · exfalso
        simp only [Bool.and_eq_true, beq_iff_eq] at hgen
        omega
      · rw [if_neg hgen, if_pos ⟨h0, hlt⟩]
        rw [hfind, hdue]
  · intro d' x hx
    refine ⟨sunday_nextAfter_weekday d' x hx, ?_⟩
    intro hbad
    have hw := sunday_nextAfter_weekday d' x hx
    rw [hbad] at hw
    exact absurd hw (by decide)

/-- C6: the anchor phase advances one day at a time from the rule's
start until the constraint matcher is satisfied — whenever the first
matching day is `k ≤ 1000` days out, the anchor lands exactly on it —
so the first returned occurrence honors the constraint rather than the
raw start date: for the weekly-Sunday rule started Saturday 2025-10-18,
`computeOccurrences(rule, 2025-10-18, 1)` is `[2025-10-19]` (a Sunday),
not the start date 2025-10-18. -/
theorem c6_anchor_first_match (task : Task) (unit : RUnit) (start : Date) (k : Nat)
    (hanch : hasAnchorConstraint task unit = true)
    (hk : k ≤ MAX_ITERATIONS)
    (hmatch : matchesRecurrenceConstraints (addDays k start) task unit = true)
    (hbefore : ∀ j, j < k → matchesRecurrenceConstraints (addDays j start) task unit = false) :
    anchorPhase task unit start = (addDays k start, k) ∧
    calculateNextOccurrences sundayTemplate 1 ⟨2025, 10, 18⟩ = [⟨2025, 10, 19⟩] ∧
    (⟨2025, 10, 19⟩ : Date) ≠ ⟨2025, 10, 18⟩ := by
  refine ⟨?_, by decide, by decide⟩
  unfold anchorPhase
  rw [if_pos hanch]
  exact scanC_first _ MAX_ITERATIONS k start hk hmatch hbefore

theorem calcOccurrencesInstr_congr (t1 t2 : Task) (count : Nat) (today : Date)
    (pat : String) (interval : Nat) (unit : RUnit)
    (hrec : t1.isRecurring = t2.isRecurring)
    (hpat1 : t1.recurringPattern = some pat) (hpat2 : t2.recurringPattern = some pat)
    (hparse : parsePattern pat.toList = some (interval, unit))
    (hstart : t1.recurringStarting = t2.recurringStarting)
    (hend : t1.recurringEnding = t2.recurringEnding)
    (hmatch : ∀ e, matchesRecurrenceConstraints e t1 unit =
        matchesRecurrenceConstraints e t2 unit)
    (hanch : hasAnchorConstraint t1 unit = hasAnchorConstraint t2 unit) :
    calcOccurrencesInstr t1 count today = calcOccurrencesInstr t2 count today := by
  unfold calcOccurrencesInstr anchorPhase
  rw [hrec, hpat1, hpat2]
  dsimp only
  rw [hparse]
  dsimp only
  simp only [hstart, hend, hmatch, hanch]

/-- C7: a rule whose constraint lists are all empty or absent passes the
constraint matcher on every date and every unit, and
`computeOccurrences` on such a rule returns exactly what it returns for
the same rule with the constraint fields absent (unconstrained
every-Nth-unit behavior). -/
theorem c7_empty_constraint_unconstrained (task : Task) (unit : RUnit)
    (count : Nat) (today d : Date)
    (hw : task.recurringWDay = none ∨ task.recurringWDay = some [])
    (hd : task.recurringDay = none ∨ task.recurringDay = some [])
    (hy : task.recurringMonth = none ∨ task.recurringMonth = some []) :
    matchesRecurrenceConstraints d task unit = true ∧
    calculateNextOccurrences task count today =
      calculateNextOccurrences
        { task with recurringWDay := none, recurringDay := none, recurringMonth := none }
        count today := by
  have hw0 : task.recurringWDay.getD [] = [] := by rcases hw with h | h <;> simp [h]
  have hd0 : task.recurringDay.getD [] = [] := by rcases hd with h | h <;> simp [h]
  have hy0 : task.recurringMonth.getD [] = [] := by rcases hy with h | h <;> simp [h]
  have hm1 : ∀ (e : Date) (u : RUnit), matchesRecurrenceConstraints e task u = true := by
    intro e u
    unfold matchesRecurrenceConstraints
    rw [hw0, hd0, hy0]
    simp
  have hm2 : ∀ (e : Date) (u : RUnit), matchesRecurrenceConstraints e
      { task with recurringWDay := none, recurringDay := none, recurringMonth := none }
      u = true := by
    intro e u
    unfold matchesRecurrenceConstraints
    dsimp only
    simp
  have ha1 : ∀ u : RUnit, hasAnchorConstraint task u = false := by
    intro u
    unfold hasAnchorConstraint
    rw [hw0, hd0, hy0]
    simp
  have ha2 : ∀ u : RUnit, hasAnchorConstraint
      { task with recurringWDay := none, recurringDay := none, recurringMonth := none }
      u = false := by
    intro u
    unfold hasAnchorConstraint
    dsimp only
    simp
  refine ⟨hm1 d unit, ?_⟩
  cases hpv : task.recurringPattern with
  | none =>
      unfold calculateNextOccurrences calcOccurrencesInstr
      dsimp only
      rw [hpv]
  | some pat =>
      cases hpp : parsePattern pat.toList with
      | none =>
          unfold calculateNextOccurrences calcOccurrencesInstr
          dsimp only
          rw [hpv]
          dsimp only
          rw [hpp]
      | some iu =>
          obtain ⟨interval, unit'⟩ := iu
          have := calcOccurrencesInstr_congr task
            { task with recurringWDay := none, recurringDay := none, recurringMonth := none }
            count today pat interval unit' rfl hpv hpv hpp rfl rfl
            (fun e => by rw [hm1 e unit', hm2 e unit'])
            (by rw [ha1 unit', ha2 unit'])
          unfold calculateNextOccurrences
          rw [this, hpv]

/-- C8, counterexample: the claim says a rule whose constraint does not
match its unit makes `computeOccurrences` return an empty sequence; on a
weekly rule with the month-day constraint `day::[15]` the code instead
ignores the mismatched constraint and returns ordinary weekly
occurrences. -/
theorem c8_counterexample :
    calculateNextOccurrences mismatchedTemplate 3 ⟨2025, 10, 18⟩ =
      [⟨2025, 10, 18⟩, ⟨2025, 10, 25⟩, ⟨2025, 11, 1⟩] ∧
    calculateNextOccurrences mismatchedTemplate 3 ⟨2025, 10, 18⟩ ≠ [] := by
  constructor <;> decide

/-- C8, amended: a malformed interval/unit pattern (one the regex does
not accept) makes `computeOccurrences` return the empty sequence — and,
the embedding being a total function, no exception can escape; a
constraint mismatched to the unit is not rejected but ignored: for every
unit, the rule computes exactly what it computes with every constraint
list not belonging to that unit removed. -/
theorem c8_amended :
    (∀ (task : Task) (count : Nat) (today : Date) (pat : String),
      task.recurringPattern = some pat → parsePattern pat.toList = none →
      calculateNextOccurrences task count today = []) ∧
    (∀ (task : Task) (count : Nat) (today : Date) (pat : String) (interval : Nat)
        (unit : RUnit),
      task.recurringPattern = some pat →
      parsePattern pat.toList = some (interval, unit) →
      calculateNextOccurrences task count today =
        calculateNextOccurrences (stripMismatched task unit) count today) := by
  constructor
  · intro task count today pat hpat hnone
    unfold calculateNextOccurrences calcOccurrencesInstr
    rw [hpat]
    dsimp only
    rw [hnone]
    cases task.isRecurring <;> rfl
  · intro task count today pat interval unit hpat hparse
    cases unit with
    | day =>
        have hm : ∀ e, matchesRecurrenceConstraints e task RUnit.day =
            matchesRecurrenceConstraints e (stripMismatched task RUnit.day) RUnit.day := by
          intro e
          unfold matchesRecurrenceConstraints
          dsimp only [stripMismatched]
          simp only [show (RUnit.day == RUnit.week) = false from rfl,
            show (RUnit.day == RUnit.month) = false from rfl,
            show (RUnit.day == RUnit.year) = false from rfl, Bool.false_and,
            Bool.false_eq_true, if_false]
        have ha : hasAnchorConstraint task RUnit.day =
            hasAnchorConstraint (stripMismatched task RUnit.day) RUnit.day := by
          unfold hasAnchorConstraint
          dsimp only [stripMismatched]
          simp only [show (RUnit.day == RUnit.week) = false from rfl,
            show (RUnit.day == RUnit.month) = false from rfl,
            show (RUnit.day == RUnit.year) = false from rfl, Bool.false_and]
        have hcongr := calcOccurrencesInstr_congr task (stripMismatched task RUnit.day)
          count today pat interval RUnit.day rfl hpat hpat hparse rfl rfl hm ha
        unfold calculateNextOccurrences
        rw [hcongr]
    | week =>
        have hm : ∀ e, matchesRecurrenceConstraints e task RUnit.week =
            matchesRecurrenceConstraints e (stripMismatched task RUnit.week) RUnit.week := by
          intro e
          unfold matchesRecurrenceConstraints
          dsimp only [stripMismatched]
          simp only [show (RUnit.week == RUnit.month) = false from rfl,
            show (RUnit.week == RUnit.year) = false from rfl, Bool.false_and,
            Bool.false_eq_true, if_false]
        have ha : hasAnchorConstraint task RUnit.week =
            hasAnchorConstraint (stripMismatched task RUnit.week) RUnit.week := by
          unfold hasAnchorConstraint
          dsimp only [stripMismatched]
          simp only [show (RUnit.week == RUnit.month) = false from rfl,
            show (RUnit.week == RUnit.year) = false from rfl, Bool.false_and]
        have hcongr := calcOccurrencesInstr_congr task (stripMismatched task RUnit.week)
          count today pat interval RUnit.week rfl hpat hpat hparse rfl rfl hm ha
        unfold calculateNextOccurrences
        rw [hcongr]
    | month =>
        have hm : ∀ e, matchesRecurrenceConstraints e task RUnit.month =
            matchesRecurrenceConstraints e (stripMismatched task RUnit.month)
              RUnit.month := by
          intro e
          unfold matchesRecurrenceConstraints
          dsimp only [stripMismatched]
          simp only [show (RUnit.month == RUnit.week) = false from rfl,
            show (RUnit.month == RUnit.year) = false from rfl, Bool.false_and,
            Bool.false_eq_true, if_false]
        have ha : hasAnchorConstraint task RUnit.month =
            hasAnchorConstraint (stripMismatched task RUnit.month) RUnit.month := by
          unfold hasAnchorConstraint
          dsimp only [stripMismatched]
          simp only [show (RUnit.month == RUnit.week) = false from rfl,
            show (RUnit.month == RUnit.year) = false from rfl, Bool.false_and]
        have hcongr := calcOccurrencesInstr_congr task (stripMismatched task RUnit.month)
          count today pat interval RUnit.month rfl hpat hpat hparse rfl rfl hm ha
        unfold calculateNextOccurrences
        rw [hcongr]
    | year =>
        have hm : ∀ e, matchesRecurrenceConstraints e task RUnit.year =
            matchesRecurrenceConstraints e (stripMismatched task RUnit.year)
              RUnit.year := by
          intro e
          unfold matchesRecurrenceConstraints
          dsimp only [stripMismatched]
          simp only [show (RUnit.year == RUnit.week) = false from rfl,
            show (RUnit.year == RUnit.month) = false from rfl, Bool.false_and,
            Bool.false_eq_true, if_false]
        have ha : hasAnchorConstraint task RUnit.year =
            hasAnchorConstraint (stripMismatched task RUnit.year) RUnit.year := by
          unfold hasAnchorConstraint
          dsimp only [stripMismatched]
          simp only [show (RUnit.year == RUnit.week) = false from rfl,
            show (RUnit.year == RUnit.month) = false from rfl, Bool.false_and]
        have hcongr := calcOccurrencesInstr_congr task (stripMismatched task RUnit.year)
          count today pat interval RUnit.year rfl hpat hpat hparse rfl rfl hm ha
        unfold calculateNextOccurrences
        rw [hcongr]

theorem anchorPhase_steps_le (task : Task) (unit : RUnit) (start : Date) :
    (anchorPhase task unit start).2 ≤ MAX_ITERATIONS := by
  unfold anchorPhase
  split
  · exact scanC_steps_le _ _ _
  · simp

/-- C2: for every rule — any pattern, constraint set (satisfiable or
not), start and end — every loop of `calculateNextOccurrences` and of
`calculateNextOccurrenceAfterDate` runs at most the 1000-iteration
ceiling (the generation loop's inner re-snaps total at most 1000 each
across at most 1000 outer iterations), the functions are total, and
hitting the ceiling degrades to returning the occurrences already found:
the result is always a list of at most `count` dates. -/
theorem c2_termination_bounds (task : Task) (count : Nat) (today d : Date) :
    (calcOccurrencesInstr task count today).anchorSteps ≤ MAX_ITERATIONS ∧
    (calcOccurrencesInstr task count today).catchUpSteps ≤ MAX_ITERATIONS ∧
    (calcOccurrencesInstr task count today).snapSteps ≤ MAX_ITERATIONS ∧
    (calcOccurrencesInstr task count today).genOuterSteps ≤ MAX_ITERATIONS ∧
    (calcOccurrencesInstr task count today).genInnerSteps ≤
      MAX_ITERATIONS * MAX_ITERATIONS ∧
    (calculateNextOccurrences task count today).length ≤ count ∧
    (calcNextAfterInstr task d).2 ≤ MAX_ITERATIONS := by
  have hmain : (calcOccurrencesInstr task count today).anchorSteps ≤ MAX_ITERATIONS ∧
      (calcOccurrencesInstr task count today).catchUpSteps ≤ MAX_ITERATIONS ∧
      (calcOccurrencesInstr task count today).snapSteps ≤ MAX_ITERATIONS ∧
      (calcOccurrencesInstr task count today).genOuterSteps ≤ MAX_ITERATIONS ∧
      (calcOccurrencesInstr task count today).genInnerSteps ≤
        MAX_ITERATIONS * MAX_ITERATIONS ∧
      (calcOccurrencesInstr task count today).occurrences.length ≤ count := by
    unfold calcOccurrencesInstr
    split
    · simp
    · split
      · simp
      · split
        · simp
        · dsimp only
          refine ⟨anchorPhase_steps_le _ _ _, catchUp_steps_le _ _ _ _ _,
            scanC_steps_le _ _ _, genLoop_outer_le _ _ _ _ _ _,
            genLoop_inner_le _ _ _ _ _ _, genLoop_length_le _ _ _ _ _ _⟩
  have hafter : (calcNextAfterInstr task d).2 ≤ MAX_ITERATIONS := by
    unfold calcNextAfterInstr
    split
    · simp
    · split
      · simp
      · split
        · simp
        · dsimp only
          split
          · simp
          · split
            · simp
            · split
              · simp
              · split
                · exact scanC_steps_le _ _ _
                · split
                  · exact scanC_steps_le _ _ _
                  · exact scanC_steps_le _ _ _
  exact ⟨hmain.1, hmain.2.1, hmain.2.2.1, hmain.2.2.2.1, hmain.2.2.2.2.1,
    hmain.2.2.2.2.2, hafter⟩

theorem anchorPhase_bounded (task : Task) (unit : RUnit) {start : Date}
    (h : Bounded start) : Bounded (anchorPhase task unit start).1 := by
  unfold anchorPhase
  split
  · exact scanC_bounded _ _ h
  · exact h

/-- C5, counterexample: the claim says every returned date is `≥ asOf`;
for a daily rule started 2020-01-01 with asOf 2025-10-12 (more than 1000
days later), the catch-up loop stops at its 1000-iteration ceiling and
the function returns 2022-09-27, which is before asOf. -/
theorem c5_counterexample :
    calculateNextOccurrences farPastTemplate 1 ⟨2025, 10, 12⟩ = [⟨2022, 9, 27⟩] ∧
    dateLt ⟨2022, 9, 27⟩ ⟨2025, 10, 12⟩ = true := by
  constructor <;> decide

/-- C5, amended: for every rule with positive interval (and calendar
start/reference dates), `computeOccurrences(rule, asOf, n)` returns a
strictly increasing sequence with no date after `rule.end`; and whenever
the catch-up phase completes below its 1000-iteration ceiling, every
returned date is also `≥ asOf`.  (When the ceiling is hit — the rule's
start lying over 1000 steps in the past — dates before `asOf` can be
returned, as the counterexample shows.) -/
theorem c5_amended (task : Task) (count : Nat) (today : Date)
    (pat : String) (interval : Nat) (unit : RUnit)
    (hrec : task.isRecurring = true)
    (hpat : task.recurringPattern = some pat)
    (hparse : parsePattern pat.toList = some (interval, unit))
    (hint : 1 ≤ interval)
    (hstart : Bounded (task.recurringStarting.getD today))
    (htoday : Bounded today) :
    List.Pairwise (fun a b => dateLt a b = true)
      (calculateNextOccurrences task count today) ∧
    (∀ e ∈ calculateNextOccurrences task count today,
      withinEnd task.recurringEnding e = true) ∧
    ((calcOccurrencesInstr task count today).catchUpSteps < MAX_ITERATIONS →
      ∀ e ∈ calculateNextOccurrences task count today, dateLe today e = true) := by
  unfold calculateNextOccurrences calcOccurrencesInstr
  rw [hrec, hpat]
  simp only [Bool.not_true, Bool.false_eq_true, if_false]
  rw [hparse]
  dsimp only
  have hadvB : ∀ e, Bounded e → Bounded (advanceDate interval unit e) :=
    fun e he => bounded_advanceDate _ _ he
  have hadvK : ∀ e, Bounded e → key e < key (advanceDate interval unit e) :=
    fun e he => key_lt_advanceDate _ _ hint he
  have hBa : Bounded (anchorPhase task unit (task.recurringStarting.getD today)).1 :=
    anchorPhase_bounded task unit hstart
  have hBc : Bounded (catchUp (fun e => matchesRecurrenceConstraints e task unit)
      (advanceDate interval unit) today MAX_ITERATIONS
      (anchorPhase task unit (task.recurringStarting.getD today)).1).1 :=
    catchUp_bounded _ _ _ _ hadvB hBa
  have hBf : Bounded (scanC (fun e => matchesRecurrenceConstraints e task unit)
      MAX_ITERATIONS (catchUp (fun e => matchesRecurrenceConstraints e task unit)
        (advanceDate interval unit) today MAX_ITERATIONS
        (anchorPhase task unit (task.recurringStarting.getD today)).1).1).1 :=
    scanC_bounded _ _ hBc
  obtain ⟨hmem, hchain⟩ := genLoop_sound
    (fun e => matchesRecurrenceConstraints e task unit) (advanceDate interval unit)
    task.recurringEnding hadvB hadvK MAX_ITERATIONS count _ hBf
  haveI : IsTrans Date (fun a b => key a < key b) :=
    ⟨fun x y z hxy hyz => Nat.lt_trans hxy hyz⟩
  have hpw := List.chain'_iff_pairwise.mp hchain
  refine ⟨?_, ?_, ?_⟩
  · refine hpw.imp_of_mem ?_
    intro a b hma hmb hk
    exact (dateLt_iff_key (hmem a hma).1 (hmem b hmb).1).mpr hk
  · intro e he
    exact (hmem e he).2.2
  · intro hsteps e he
    have hcr := catchUp_reaches (fun e => matchesRecurrenceConstraints e task unit)
      (advanceDate interval unit) today MAX_ITERATIONS
      (anchorPhase task unit (task.recurringStarting.getD today)).1 hsteps
    have h1 : key today ≤ key (catchUp (fun e => matchesRecurrenceConstraints e task unit)
        (advanceDate interval unit) today MAX_ITERATIONS
        (anchorPhase task unit (task.recurringStarting.getD today)).1).1 :=
      (dateLt_false_iff_key hBc htoday).mp hcr
    have h2 := scanC_key_le (fun e => matchesRecurrenceConstraints e task unit)
      MAX_ITERATIONS hBc
    have h3 := (hmem e he).2.1
    have h4 : dateLt e today = false :=
      (dateLt_false_iff_key (hmem e he).1 htoday).mpr (by omega)
    unfold dateLe
    rw [h4]
    rfl

theorem mem_materializationWrites {tasks : List Task} {today : Date} {w : Task}
    (hw : w ∈ materializationWrites tasks today) :
    ∃ tmpl occ, w = buildRecurringTaskInstance tmpl occ ∧
      occ ∈ calculateNextOccurrences tmpl 2 today ∧
      instanceExists tasks tmpl.taskName occ = false := by
  unfold materializationWrites at hw
  dsimp only at hw
  rw [List.mem_flatMap] at hw
  obtain ⟨tmpl, _, hw2⟩ := hw
  rw [List.mem_filterMap] at hw2
  obtain ⟨occ, hocc, hif⟩ := hw2
  refine ⟨tmpl, occ, ?_⟩
  split at hif
  · rename_i hcond
    simp only [Bool.and_eq_true, Bool.not_eq_true'] at hcond
    exact ⟨(Option.some.inj hif).symm, hocc, hcond.2⟩
  · cases hif

/-- C9: running the materialization pass twice in succession never
produces two persisted instances for the same template identity and due
date.  First conjunct: a second run within 24 hours of the first is
stopped by the heartbeat gate and writes nothing.  Second conjunct: even
ignoring the gate, when the second run's task list reflects the first
run's writes (a non-recurring instance with each written name and due
date is present, as the file watcher's reload guarantees), the
existence-before-write check makes the second pass add no (name, date)
— hence no (identity, date) — pair the first already added. -/
theorem c9_materialization_idempotent :
    (∀ (lastCheck now : Nat) (tasks : List Task) (today : Date),
      now - lastCheck < oneDayMs →
      checkAndGenerateRecurringTasks lastCheck now tasks today = ([], lastCheck)) ∧
    (∀ (tasks1 tasks2 : List Task) (today1 today2 : Date),
      (∀ a ∈ materializationWrites tasks1 today1,
        ∃ t ∈ tasks2, t.taskName = a.taskName ∧ t.dueDate = a.dueDate ∧
          t.isRecurring = false) →
      ∀ w ∈ materializationWrites tasks2 today2,
        ∀ a ∈ materializationWrites tasks1 today1,
          ¬(w.taskName = a.taskName ∧ w.dueDate = a.dueDate)) := by
  constructor
  · intro lastCheck now tasks today hgate
    unfold checkAndGenerateRecurringTasks
    rw [if_pos hgate]
  · intro tasks1 tasks2 today1 today2 hfresh w hw a ha
    rintro ⟨hname, hdue⟩
    obtain ⟨tmplw, occw, hwB, _, hexw⟩ := mem_materializationWrites hw
    obtain ⟨t, htmem, htn, htd, htr⟩ := hfresh a ha
    have hwname : w.taskName = tmplw.taskName := by rw [hwB]; rfl
    have hwdue : w.dueDate = some occw := by rw [hwB]; rfl
    have hex : instanceExists tasks2 tmplw.taskName occw = true := by
      unfold instanceExists
      rw [List.any_eq_true]
      refine ⟨t, htmem, ?_⟩
      simp only [Bool.and_eq_true, beq_iff_eq, Bool.not_eq_true']
      refine ⟨⟨?_, ?_⟩, htr⟩
      · rw [htn, ← hname, hwname]
      · rw [htd, ← hdue, hwdue]
    rw [hex] at hexw
    cases hexw

/-! ### Witnesses: the claim theorems applied at concrete inputs -/

/-- C1, witness: completing the materialized Sunday instance due
2025-10-19 writes the date `nextAfter(rule, 2025-10-19)`. -/
theorem c1_witness :
    (completedSundayInstance.status = "todo" ∧
      findTemplate [sundayTemplate] completedSundayInstance = some sundayTemplate ∧
      completedSundayInstance.dueDate = some ⟨2025, 10, 19⟩) ∧
    toggleTaskNextDate [sundayTemplate] 10 completedSundayInstance =
      calculateNextOccurrenceAfterDate sundayTemplate ⟨2025, 10, 19⟩ :=
  ⟨⟨by decide, by decide, by decide⟩,
    (c1_completion_anchored_at_due [sundayTemplate] 10 completedSundayInstance
      sundayTemplate ⟨2025, 10, 19⟩ (by decide)
      (Or.inr ⟨by decide, by decide⟩) (by decide) (by decide)).1⟩

/-- C4, witness: the Mon/Wed/Fri rule at completed Monday 2025-10-20
(first listed weekday afterwards 2 days out, on Wednesday). -/
theorem c4_witness :
    (1 < (mwfTemplate.recurringWDay.getD []).length ∧
      ((mwfTemplate.recurringWDay.getD []).contains (weekday (addDays 2 ⟨2025, 10, 20⟩)) &&
        withinEnd mwfTemplate.recurringEnding (addDays 2 ⟨2025, 10, 20⟩)) = true) ∧
    calculateNextOccurrenceAfterDate mwfTemplate ⟨2025, 10, 20⟩ =
      some (addDays 2 ⟨2025, 10, 20⟩) ∧
    addDays 2 ⟨2025, 10, 20⟩ = (⟨2025, 10, 22⟩ : Date) :=
  ⟨⟨by decide, by decide⟩,
    (c4_weekly_multi mwfTemplate "1week" 1 ⟨2025, 10, 20⟩ 2 (by decide) (by decide)
      (by decide) (by decide) (by decide) (by decide) (by decide)
      (fun j hj1 hj2 => by
        have hj : j = 1 := by omega
        subst hj
        decide)).1,
    by decide⟩

/-- C5, witness: the weekly Sunday rule, count 3, asOf 2025-10-18. -/
theorem c5_witness :
    (parsePattern "1week".toList = some (1, RUnit.week) ∧
      Bounded (sundayTemplate.recurringStarting.getD ⟨2025, 10, 18⟩) ∧
      Bounded (⟨2025, 10, 18⟩ : Date)) ∧
    (List.Pairwise (fun a b => dateLt a b = true)
        (calculateNextOccurrences sundayTemplate 3 ⟨2025, 10, 18⟩) ∧
      (∀ e ∈ calculateNextOccurrences sundayTemplate 3 ⟨2025, 10, 18⟩,
        withinEnd sundayTemplate.recurringEnding e = true) ∧
      ((calcOccurrencesInstr sundayTemplate 3 ⟨2025, 10, 18⟩).catchUpSteps <
          MAX_ITERATIONS →
        ∀ e ∈ calculateNextOccurrences sundayTemplate 3 ⟨2025, 10, 18⟩,
          dateLe ⟨2025, 10, 18⟩ e = true)) :=
  ⟨⟨by decide, by decide, by decide⟩,
    c5_amended sundayTemplate 3 ⟨2025, 10, 18⟩ "1week" 1 RUnit.week (by decide)
      (by decide) (by decide) (by decide) (by decide) (by decide)⟩

/-- C6, witness: the weekly Sunday rule started Saturday 2025-10-18
anchors at 2025-10-19, one day out. -/
theorem c6_witness :
    (hasAnchorConstraint sundayTemplate RUnit.week = true ∧
      matchesRecurrenceConstraints (addDays 1 ⟨2025, 10, 18⟩) sundayTemplate
        RUnit.week = true) ∧
    anchorPhase sundayTemplate RUnit.week ⟨2025, 10, 18⟩ =
      (addDays 1 ⟨2025, 10, 18⟩, 1) ∧
    addDays 1 ⟨2025, 10, 18⟩ = (⟨2025, 10, 19⟩ : Date) :=
  ⟨⟨by decide, by decide⟩,
    (c6_anchor_first_match sundayTemplate RUnit.week ⟨2025, 10, 18⟩ 1 (by decide)
      (by decide) (by decide)
      (fun j hj => by
        have hj0 : j = 0 := by omega
        subst hj0
        decide)).1,
    by decide⟩

/-- C7, witness: the weekly rule with the empty weekday list behaves as
the same rule with no constraint fields at all. -/
theorem c7_witness :
    (emptyWdayTemplate.recurringWDay = some [] ∧
      emptyWdayTemplate.recurringDay = none ∧ emptyWdayTemplate.recurringMonth = none) ∧
    matchesRecurrenceConstraints ⟨2025, 10, 18⟩ emptyWdayTemplate RUnit.week = true ∧
    calculateNextOccurrences emptyWdayTemplate 2 ⟨2025, 10, 18⟩ =
      calculateNextOccurrences
        { emptyWdayTemplate with
            recurringWDay := none, recurringDay := none, recurringMonth := none }
        2 ⟨2025, 10, 18⟩ :=
  ⟨⟨by decide, by decide, by decide⟩,
    c7_empty_constraint_unconstrained emptyWdayTemplate RUnit.week 2 ⟨2025, 10, 18⟩
      ⟨2025, 10, 18⟩ (Or.inr (by decide)) (Or.inl (by decide)) (Or.inl (by decide))⟩

/-- C8, witness: the unparsable pattern `weekly` produces the empty
sequence; the weekly rule with a month-day list and the monthly rule
with a weekday list each compute the same occurrences as with the
mismatched list removed. -/
theorem c8_witness :
    (malformedTemplate.recurringPattern = some "weekly" ∧
      parsePattern "weekly".toList = none ∧
      parsePattern "1week".toList = some (1, RUnit.week) ∧
      parsePattern "1month".toList = some (1, RUnit.month)) ∧
    calculateNextOccurrences malformedTemplate 3 ⟨2025, 10, 18⟩ = [] ∧
    calculateNextOccurrences mismatchedTemplate 3 ⟨2025, 10, 18⟩ =
      calculateNextOccurrences (stripMismatched mismatchedTemplate RUnit.week)
        3 ⟨2025, 10, 18⟩ ∧
    calculateNextOccurrences mismatchedMonthlyTemplate 2 ⟨2025, 10, 18⟩ =
      calculateNextOccurrences (stripMismatched mismatchedMonthlyTemplate RUnit.month)
        2 ⟨2025, 10, 18⟩ :=
  ⟨⟨by decide, by decide, by decide, by decide⟩,
    c8_amended.1 malformedTemplate 3 ⟨2025, 10, 18⟩ "weekly" (by decide) (by decide),
    c8_amended.2 mismatchedTemplate 3 ⟨2025, 10, 18⟩ "1week" 1 RUnit.week (by decide)
      (by decide),
    c8_amended.2 mismatchedMonthlyTemplate 2 ⟨2025, 10, 18⟩ "1month" 1 RUnit.month
      (by decide) (by decide)⟩

/-- C9, witness: one Sunday template; the first pass writes the
2025-10-19 instance; with the task list refreshed to contain it, the
second pass (run the day after) adds no (name, date) pair again — and a
second call within 24 hours is gated off entirely. -/
theorem c9_witness :
    checkAndGenerateRecurringTasks 1000 900000 [sundayTemplate] ⟨2025, 10, 18⟩ =
      ([], 1000) ∧
    (∀ a ∈ materializationWrites [sundayTemplate] ⟨2025, 10, 18⟩,
      ∃ t ∈ sundayTemplate :: materializationWrites [sundayTemplate] ⟨2025, 10, 18⟩,
        t.taskName = a.taskName ∧ t.dueDate = a.dueDate ∧ t.isRecurring = false) ∧
    (∀ w ∈ materializationWrites
        (sundayTemplate :: materializationWrites [sundayTemplate] ⟨2025, 10, 18⟩)
        ⟨2025, 10, 19⟩,
      ∀ a ∈ materializationWrites [sundayTemplate] ⟨2025, 10, 18⟩,
        ¬(w.taskName = a.taskName ∧ w.dueDate = a.dueDate)) :=
  ⟨c9_materialization_idempotent.1 1000 900000 [sundayTemplate] ⟨2025, 10, 18⟩
      (by decide),
    by decide,
    c9_materialization_idempotent.2 [sundayTemplate]
      (sundayTemplate :: materializationWrites [sundayTemplate] ⟨2025, 10, 18⟩)
      ⟨2025, 10, 18⟩ ⟨2025, 10, 19⟩ (by decide)⟩

/-- C10, witness: the same Mon/Wed/Fri weekday set with interval 1 and
interval 2 yields the same next date, Wednesday 2025-10-22. -/
theorem c10_witness :
    (parsePattern "1week".toList = some (1, RUnit.week) ∧
      parsePattern "2week".toList = some (2, RUnit.week) ∧
      weeklyNextGo (mwfTemplate.recurringWDay.getD []) mwfTemplate.recurringEnding
        ⟨2025, 10, 20⟩ 6 1 = some ⟨2025, 10, 22⟩) ∧
    calculateNextOccurrenceAfterDate mwfTemplate ⟨2025, 10, 20⟩ = some ⟨2025, 10, 22⟩ ∧
    calculateNextOccurrenceAfterDate
      { mwfTemplate with recurringPattern := some "2week" } ⟨2025, 10, 20⟩ =
      some ⟨2025, 10, 22⟩ :=
  ⟨⟨by decide, by decide, by decide⟩,
    (c10_interval_ignored mwfTemplate "1week" "2week" 1 2 ⟨2025, 10, 20⟩
      ⟨2025, 10, 22⟩ (by decide) (by decide) (by decide) (by decide) (by decide)
      (by decide)).1,
    (c10_interval_ignored mwfTemplate "1week" "2week" 1 2 ⟨2025, 10, 20⟩
      ⟨2025, 10, 22⟩ (by decide) (by decide) (by decide) (by decide) (by decide)
      (by decide)).2.1⟩

end Tasker
